import Mathlib

/-!
Verification of the encode-orchestration subsystem of `generate-dailies`
(`daily_gui.py`, `daily_gui_Version3.py`) against its natural-language
specification.  Python code is shallowly embedded: pure fragments become
Lean functions, the environment (directory listings, the child process's
streams and exit code) is passed explicitly, machine integers are `Int`/`Nat`,
and Python `float` arithmetic on frame dimensions is modelled with exact
rationals (`ℚ`).  Fallible operations (`os.listdir` raising, `KeyError`)
are modelled with `Except`/`Option`.
-/

/-! ## Progress protocol parser

`EncodeThread.run` (daily_gui.py, lines 33-49) matches each stderr line,
after `line.strip()`, against the regex `^PROGRESS (\d+) (\d+) (.+)$` and
emits `(int(g1), int(g2), g3)` on a match.
-/

/-- A parsed progress event: current frame, total frames, preview payload
(`self.progress.emit(frame, total, img_data)`). -/
structure ProgressEvent where
  frame : Nat
  total : Nat
  payload : String
deriving DecidableEq, Repr

/-- The characters removed from both ends of a line by Python `str.strip()`
(ASCII whitespace; the source lines only ever carry these). -/
def isSpaceChar (c : Char) : Bool :=
  c = ' ' || c = '\t' || c = '\n' || c = '\r' || c = '\x0b' || c = '\x0c'

/-- `str.strip()` on a character list: drop whitespace from both ends. -/
def trimChars (cs : List Char) : List Char :=
  ((cs.dropWhile isSpaceChar).reverse.dropWhile isSpaceChar).reverse

/-- Maximal run of ASCII decimal digits at the front of a character list,
together with the remainder (the deterministic behaviour of `(\d+)` when the
regex requires a non-digit right after the group). -/
def digitsPrefix : List Char → List Char × List Char
  | [] => ([], [])
  | c :: cs =>
    if c.isDigit then
      let p := digitsPrefix cs
      (c :: p.1, p.2)
    else ([], c :: cs)

/-- Decimal value of a digit string, as computed by Python `int()`. -/
def digitsToNat (ds : List Char) : Nat :=
  ds.foldl (fun acc c => 10 * acc + (c.toNat - '0'.toNat)) 0

/-- After `PROGRESS <d1> <d2> `, the rest of the regex is `(.+)$`: the
remainder must be non-empty and (since `.` does not match `\n` and the
matched string carries no trailing newline) must contain no newline. -/
def parseThird (d1 d2 : List Char) : List Char → Option ProgressEvent
  | [] => none
  | c :: r4 =>
    if c = ' ' then
      if r4 = [] then none
      else if '\n' ∈ r4 then none
      else some ⟨digitsToNat d1, digitsToNat d2, String.mk r4⟩
    else none

/-- After `PROGRESS <d1>`, the regex requires a single space, then the
second digit group `(\d+)` (maximal run, necessarily followed by a space). -/
def parseSecond (d1 : List Char) : List Char → Option ProgressEvent
  | [] => none
  | c :: r2 =>
    if c = ' ' then
      if (digitsPrefix r2).1 = [] then none
      else parseThird d1 (digitsPrefix r2).1 (digitsPrefix r2).2
    else none

/-- The regex `^PROGRESS (\d+) (\d+) (.+)$` applied to a string with no
trailing newline: literal `PROGRESS `, a digit run, a space, a digit run,
a space, a non-empty rest. -/
def matchProgressLine (s : String) : Option ProgressEvent :=
  if s.toList.take 9 = "PROGRESS ".toList then
    if (digitsPrefix (s.toList.drop 9)).1 = [] then none
    else parseSecond (digitsPrefix (s.toList.drop 9)).1 (digitsPrefix (s.toList.drop 9)).2
  else none

/-- The per-line parser of `EncodeThread.run`:
`m = progress_re.match(line.strip())` — the regex is applied to the
whitespace-stripped line. -/
def parseProgress (line : String) : Option ProgressEvent :=
  matchProgressLine (String.mk (trimChars line.toList))

/-! ## Process orchestrator (`EncodeThread.run`) -/

/-- The terminal notification `finished.emit(returncode, stdout, stderr)`.
`stderrRem` is the error output returned by `process.communicate()`:
only the part of the stream not already consumed by the live read loop
(kept as a list of lines). -/
structure RunResult where
  retcode : Int
  stdout : String
  stderrRem : List String
deriving DecidableEq, Repr

/-- One externally observable emission of `EncodeThread.run`. -/
inductive OutEvent where
  | progress : ProgressEvent → OutEvent
  | finished : RunResult → OutEvent
deriving DecidableEq, Repr

/-- The live stderr read loop (daily_gui.py lines 36-49): every line is read
(the loop only exits at stream EOF once the child has exited), matching
lines emit a progress signal, all others are dropped. -/
def drainStderr : List String → List OutEvent
  | [] => []
  | l :: ls =>
    match parseProgress l with
    | some ev => OutEvent.progress ev :: drainStderr ls
    | none => drainStderr ls

/-- `EncodeThread.run`, given the child's behaviour (its stderr lines, its
full stdout text, its exit code): the loop drains stderr to EOF, then
`stdout, stderr = process.communicate()` returns the full stdout and the
*remaining* (already empty) stderr, and exactly one `finished` signal is
emitted. -/
def runEncodeThread (stderrLines : List String) (stdoutText : String)
    (exitCode : Int) : List OutEvent :=
  drainStderr stderrLines ++ [OutEvent.finished ⟨exitCode, stdoutText, []⟩]

example : parseProgress "PROGRESS 12 240 AAAA==" = some ⟨12, 240, "AAAA=="⟩ := by decide
example : parseProgress "NOT A PROGRESS LINE" = none := by decide
example : parseProgress " PROGRESS 1 2 x\n" = some ⟨1, 2, "x"⟩ := by decide
example : parseProgress "PROGRESS 12 240" = none := by decide

/-! ## The exact progress-line shape, stated declaratively

This is the shape the specification describes: literal token `PROGRESS`,
one space, a non-empty run of decimal digits, one space, a non-empty run
of decimal digits, one space, a non-empty remainder payload containing no
newline; the two integers are the decimal values of the digit runs. -/

/-- The claim-level description of a progress line, as a decomposition of
the raw character list of the line. -/
def ProgressShape (cs : List Char) (frame total : Nat) (payload : String) : Prop :=
  ∃ d1 d2 p, cs = "PROGRESS ".toList ++ (d1 ++ ' ' :: (d2 ++ ' ' :: p)) ∧
    d1 ≠ [] ∧ (∀ c ∈ d1, c.isDigit) ∧
    d2 ≠ [] ∧ (∀ c ∈ d2, c.isDigit) ∧
    p ≠ [] ∧ '\n' ∉ p ∧
    frame = digitsToNat d1 ∧ total = digitsToNat d2 ∧ payload = String.mk p

theorem digitsPrefix_append (cs : List Char) :
    (digitsPrefix cs).1 ++ (digitsPrefix cs).2 = cs := by
  induction cs with
  | nil => rfl
  | cons c cs ih =>
    by_cases hc : c.isDigit
    · simp [digitsPrefix, hc, ih]
    · simp [digitsPrefix, hc]

theorem digitsPrefix_digits (cs : List Char) :
    ∀ c ∈ (digitsPrefix cs).1, c.isDigit := by
  induction cs with
  | nil => intro c hc; simp [digitsPrefix] at hc
  | cons c cs ih =>
    intro x hx
    by_cases hc : c.isDigit
    · simp [digitsPrefix, hc] at hx
      rcases hx with rfl | hx
      · exact hc
      · exact ih x hx
    · simp [digitsPrefix, hc] at hx

/-- On a list that starts with a digit run followed by a non-digit,
`digitsPrefix` returns exactly that run and the rest. -/
theorem digitsPrefix_exact (d : List Char) (x : Char) (r : List Char)
    (hd : ∀ c ∈ d, c.isDigit) (hx : ¬ x.isDigit) :
    digitsPrefix (d ++ x :: r) = (d, x :: r) := by
  induction d with
  | nil => simp [digitsPrefix, hx]
  | cons c d ih =>
    have hc : c.isDigit := hd c (by simp)
    have hrest : ∀ c ∈ d, c.isDigit := fun c hcm => hd c (by simp [hcm])
    simp [digitsPrefix, hc, ih hrest]

theorem progressShape_head {cs : List Char} {f t : Nat} {p : String}
    (h : ProgressShape cs f t p) : cs.head? = some 'P' := by
  obtain ⟨d1, d2, q, heq, -⟩ := h
  rw [heq]; rfl

theorem parseThird_cons (d1 d2 : List Char) (c : Char) (r4 : List Char) :
    parseThird d1 d2 (c :: r4) =
      if c = ' ' then
        if r4 = [] then none
        else if '\n' ∈ r4 then none
        else some ⟨digitsToNat d1, digitsToNat d2, String.mk r4⟩
      else none := rfl

theorem parseSecond_cons (d1 : List Char) (c : Char) (r2 : List Char) :
    parseSecond d1 (c :: r2) =
      if c = ' ' then
        if (digitsPrefix r2).1 = [] then none
        else parseThird d1 (digitsPrefix r2).1 (digitsPrefix r2).2
      else none := rfl

theorem parseThird_eq_some_iff (d1 d2 r : List Char) (f t : Nat) (p : String) :
    parseThird d1 d2 r = some ⟨f, t, p⟩ ↔
      ∃ r4, r = ' ' :: r4 ∧ r4 ≠ [] ∧ '\n' ∉ r4 ∧
        f = digitsToNat d1 ∧ t = digitsToNat d2 ∧ p = String.mk r4 := by
  cases r with
  | nil => simp [parseThird]
  | cons c r4 =>
    rw [parseThird_cons]
    by_cases hc : c = ' '
    · subst hc
      rw [if_pos rfl]
      by_cases h4 : r4 = []
      · simp [h4]
      · by_cases hnl : '\n' ∈ r4
        · simp [h4, hnl]
        · rw [if_neg h4, if_neg hnl]
          constructor
          · intro h
            injection h with h'
            injection h' with hf ht hp
            subst hf; subst ht; subst hp
            exact ⟨r4, rfl, h4, hnl, rfl, rfl, rfl⟩
          · rintro ⟨r5, heq, -, -, rfl, rfl, rfl⟩
            obtain rfl : r4 = r5 := by injection heq
            rfl
    · rw [if_neg hc]
      constructor
      · intro h; cases h
      · rintro ⟨r5, heq, -⟩
        injection heq with h1 h2
        exact absurd h1 hc

theorem parseSecond_eq_some_iff (d1 r : List Char) (f t : Nat) (p : String) :
    parseSecond d1 r = some ⟨f, t, p⟩ ↔
      ∃ d2 r4, r = ' ' :: (d2 ++ ' ' :: r4) ∧ d2 ≠ [] ∧ (∀ c ∈ d2, c.isDigit) ∧
        r4 ≠ [] ∧ '\n' ∉ r4 ∧
        f = digitsToNat d1 ∧ t = digitsToNat d2 ∧ p = String.mk r4 := by
  cases r with
  | nil => simp [parseSecond]
  | cons c r2 =>
    rw [parseSecond_cons]
    by_cases hc : c = ' '
    · subst hc
      rw [if_pos rfl]
      obtain ⟨dd, rr, hdp⟩ : ∃ dd rr, digitsPrefix r2 = (dd, rr) :=
        ⟨(digitsPrefix r2).1, (digitsPrefix r2).2, rfl⟩
      have h1 : (digitsPrefix r2).1 = dd := by rw [hdp]
      have h2 : (digitsPrefix r2).2 = rr := by rw [hdp]
      have hap : dd ++ rr = r2 := by
        have h := digitsPrefix_append r2
        rw [h1, h2] at h
        exact h
      have hdig : ∀ x ∈ dd, x.isDigit := by
        have h := digitsPrefix_digits r2
        rw [h1] at h
        exact h
      rw [h1, h2]
      by_cases hd2 : dd = []
      · rw [if_pos hd2]
        constructor
        · intro h; cases h
        · rintro ⟨d2, r4, heq, hne, hdig2, -⟩
          obtain rfl : r2 = d2 ++ ' ' :: r4 := by injection heq
          rw [digitsPrefix_exact d2 ' ' r4 hdig2 (by decide)] at hdp
          injection hdp with hh1 hh2
          exact absurd (hh1.trans hd2) hne
      · rw [if_neg hd2, parseThird_eq_some_iff]
        constructor
        · rintro ⟨r4, rfl, h4, hnl, rfl, rfl, rfl⟩
          exact ⟨dd, r4, by rw [← hap], hd2, hdig, h4, hnl, rfl, rfl, rfl⟩
        · rintro ⟨d2, r4, heq, hne, hdig2, h4, hnl, rfl, rfl, rfl⟩
          obtain rfl : r2 = d2 ++ ' ' :: r4 := by injection heq
          rw [digitsPrefix_exact d2 ' ' r4 hdig2 (by decide)] at hdp
          injection hdp with hh1 hh2
          subst hh1
          exact ⟨r4, hh2.symm, h4, hnl, rfl, rfl, rfl⟩
    · rw [if_neg hc]
      constructor
      · intro h; cases h
      · rintro ⟨d2, r4, heq, -⟩
        injection heq with h1 h2
        exact absurd h1 hc

theorem matchProgressLine_eq_some_iff (s : String) (f t : Nat) (p : String) :
    matchProgressLine s = some ⟨f, t, p⟩ ↔ ProgressShape s.toList f t p := by
  unfold matchProgressLine
  by_cases h9 : s.toList.take 9 = "PROGRESS ".toList
  · rw [if_pos h9]
    have hsplit : s.toList = "PROGRESS ".toList ++ s.toList.drop 9 := by
      conv_lhs => rw [← List.take_append_drop 9 s.toList]
      rw [h9]
    obtain ⟨dd, rr, hdp⟩ : ∃ dd rr, digitsPrefix (s.toList.drop 9) = (dd, rr) :=
      ⟨(digitsPrefix (s.toList.drop 9)).1, (digitsPrefix (s.toList.drop 9)).2, rfl⟩
    have h1 : (digitsPrefix (s.toList.drop 9)).1 = dd := by rw [hdp]
    have h2 : (digitsPrefix (s.toList.drop 9)).2 = rr := by rw [hdp]
    have hap : dd ++ rr = s.toList.drop 9 := by
      have h := digitsPrefix_append (s.toList.drop 9)
      rw [h1, h2] at h
      exact h
    have hdig : ∀ x ∈ dd, x.isDigit := by
      have h := digitsPrefix_digits (s.toList.drop 9)
      rw [h1] at h
      exact h
    rw [h1, h2]
    by_cases hd1 : dd = []
    · rw [if_pos hd1]
      constructor
      · intro h; cases h
      · rintro ⟨d1, d2, q, heq, hne, hdig1, -⟩
        have hdrop : s.toList.drop 9 = d1 ++ ' ' :: (d2 ++ ' ' :: q) := by
          rw [heq]; rfl
        rw [hdrop, digitsPrefix_exact d1 ' ' _ hdig1 (by decide)] at hdp
        injection hdp with hh1 hh2
        exact absurd (hh1.trans hd1) hne
    · rw [if_neg hd1, parseSecond_eq_some_iff]
      constructor
      · rintro ⟨d2, r4, rfl, hne2, hdig2, h4, hnl, rfl, rfl, rfl⟩
        refine ⟨dd, d2, r4, ?_, hd1, hdig, hne2, hdig2, h4, hnl, rfl, rfl, rfl⟩
        rw [hsplit, ← hap]
      · rintro ⟨d1, d2, q, heq, hne, hdig1, hne2, hdig2, hq, hnl, rfl, rfl, rfl⟩
        have hdrop : s.toList.drop 9 = d1 ++ ' ' :: (d2 ++ ' ' :: q) := by
          rw [heq]; rfl
        rw [hdrop, digitsPrefix_exact d1 ' ' _ hdig1 (by decide)] at hdp
        injection hdp with hh1 hh2
        subst hh1
        exact ⟨d2, q, hh2.symm, hne2, hdig2, hq, hnl, rfl, rfl, rfl⟩
  · rw [if_neg h9]
    constructor
    · intro h; cases h
    · rintro ⟨d1, d2, q, heq, hne, hdig, -⟩
      have : s.toList.take 9 = "PROGRESS ".toList := by
        rw [heq]; rfl
      exact absurd this h9

theorem parseProgress_eq_some_iff (line : String) (f t : Nat) (p : String) :
    parseProgress line = some ⟨f, t, p⟩ ↔
      ProgressShape (trimChars line.toList) f t p := by
  rw [parseProgress]
  exact matchProgressLine_eq_some_iff (String.mk (trimChars line.toList)) f t p
/-! ## Claims C1 and C2 -/

/-- `true` exactly on the terminal `finished` notification. -/
def isFinishedEv : OutEvent → Bool
  | OutEvent.finished _ => true
  | OutEvent.progress _ => false

theorem drainStderr_eq (ls : List String) :
    drainStderr ls = (ls.filterMap parseProgress).map OutEvent.progress := by
  induction ls with
  | nil => rfl
  | cons l ls ih =>
    cases h : parseProgress l with
    | none => simp [drainStderr, h, ih]
    | some ev => simp [drainStderr, h, ih]

/-- C2, counterexample to the claim as stated: the line
`" PROGRESS 1 2 x"` (leading space) does *not* have the exact
`PROGRESS <int> <int> <payload>` shape, yet the parser emits
`ProgressEvent(1, 2, "x")` for it, because the code matches the regex
against `line.strip()`. -/
theorem C2_counterexample :
    parseProgress " PROGRESS 1 2 x" = some ⟨1, 2, "x"⟩ ∧
    ¬ ∃ f t p, ProgressShape " PROGRESS 1 2 x".toList f t p := by
  constructor
  · decide
  · rintro ⟨f, t, p, hs⟩
    exact absurd (progressShape_head hs) (by decide)

/-- C2 (amended): a line yields `ProgressEvent(f, t, payload)` iff the
*whitespace-stripped* line has the exact shape `PROGRESS`, one space, a
decimal integer, one space, a decimal integer, one space, a non-empty
payload; in particular `PROGRESS 12 240 AAAA==` yields
`ProgressEvent(12, 240, "AAAA==")` and `NOT A PROGRESS LINE` yields no
event. -/
theorem C2_progress_parser_amended :
    (∀ (line : String) (f t : Nat) (p : String),
        parseProgress line = some ⟨f, t, p⟩ ↔
          ProgressShape (trimChars line.toList) f t p) ∧
    parseProgress "PROGRESS 12 240 AAAA==" = some ⟨12, 240, "AAAA=="⟩ ∧
    parseProgress "NOT A PROGRESS LINE" = none :=
  ⟨parseProgress_eq_some_iff, by decide, by decide⟩

/-- Witness for C2: the example line, pushed through the equivalence. -/
theorem C2_progress_parser_witness :
    ProgressShape (trimChars "PROGRESS 12 240 AAAA==".toList) 12 240 "AAAA==" :=
  (C2_progress_parser_amended.1 "PROGRESS 12 240 AAAA==" 12 240 "AAAA==").mp
    (by decide)

/-- C1, counterexample to the claim as stated: with a child that exits
with code 2 after printing one non-protocol line on stderr, the
`RunResult` does *not* contain that line — the live read loop consumed
the whole stream, so `process.communicate()` returns empty remaining
stderr. -/
theorem C1_counterexample :
    runEncodeThread ["NOT A PROGRESS LINE"] "" 2
        = [OutEvent.finished ⟨2, "", []⟩] ∧
    "NOT A PROGRESS LINE" ∉ (RunResult.mk 2 "" []).stderrRem := by
  constructor
  · decide
  · simp

/-- C1 (amended): every run emits exactly one `RunResult`, it is the
last event (hence after all `ProgressEvent`s), it carries the exit code
and the full stdout, but its stderr component is only the error output
left unread at termination — which is empty, since the read loop drains
the stream to EOF; the events before it are exactly the parsed progress
lines, in order. A child exiting with code 2 therefore yields
`RunResult(2, stdout, "")`. -/
theorem C1_run_result_amended (lines : List String) (stdoutText : String)
    (code : Int) :
    (runEncodeThread lines stdoutText code).filter isFinishedEv
        = [OutEvent.finished ⟨code, stdoutText, []⟩] ∧
    (runEncodeThread lines stdoutText code).getLast?
        = some (OutEvent.finished ⟨code, stdoutText, []⟩) ∧
    (runEncodeThread lines stdoutText code).dropLast
        = (lines.filterMap parseProgress).map OutEvent.progress := by
  refine ⟨?_, ?_, ?_⟩
  · simp [runEncodeThread, drainStderr_eq, List.filter_append, List.filter_map,
      isFinishedEv, Function.comp]
  · simp [runEncodeThread]
  · simp [runEncodeThread, drainStderr_eq]

/-! ## Sequence scanner (`DailyGUI.find_first_image`)

daily_gui.py lines 172-178 (identical in daily_gui_Version3.py lines
112-118):
for each configured extension, collect `os.path.join(folder, f)` for the
entries `f` of `os.listdir(folder)` with `f.lower().endswith(ext)`; sort
the combined list; return its first element, or `None` if empty.
The directory listing is passed in explicitly (`names`); `os.listdir`
raising on a missing/unreadable directory is modelled separately below.
-/

/-- `str.lower()` (the filenames in play are ASCII). -/
def lowerChars (cs : List Char) : List Char := cs.map Char.toLower

/-- Python `s.endswith(suf)` on character lists. -/
def endsWithL (s suf : List Char) : Bool :=
  decide (suf.length ≤ s.length) && decide (s.drop (s.length - suf.length) = suf)

/-- The code's membership test: `f.lower().endswith(ext)` — the filename is
case-folded, but the extension is used exactly as configured. -/
def matchesExt (f ext : String) : Bool :=
  endsWithL (lowerChars f.toList) ext.toList

/-- The claim's membership test: the name, *matched case-insensitively*,
ends with the accepted extension (both sides case-folded). -/
def qualifiesCI (f ext : String) : Bool :=
  endsWithL (lowerChars f.toList) (lowerChars ext.toList)

/-- `os.path.join(folder, f)` for a plain (relative) directory entry. -/
def joinPath (folder f : String) : String :=
  if folder = "" then f
  else if folder.toList.getLast? = some '/' then folder ++ f
  else folder ++ "/" ++ f

/-- Python's strict string comparison, structurally: lexicographic by
code point, a proper prefix being smaller. -/
def listLtB : List Char → List Char → Bool
  | _, [] => false
  | [], _ :: _ => true
  | a :: as, b :: bs =>
    if a < b then true
    else if b < a then false
    else listLtB as bs

/-- The (non-strict) string order used by Python `sorted`. -/
def pyStrLe (a b : String) : Prop := listLtB b.data a.data = false

instance : DecidableRel pyStrLe := fun _ _ => instDecidableEqBool _ _

theorem listLtB_iff : ∀ as bs : List Char,
    listLtB as bs = true ↔ List.Lex (· < ·) as bs := by
  intro as
  induction as with
  | nil =>
    intro bs
    cases bs with
    | nil => simp [listLtB]
    | cons b bs => simp [listLtB]; exact List.Lex.nil
  | cons a as ih =>
    intro bs
    cases bs with
    | nil => simp [listLtB]
    | cons b bs =>
      rw [show listLtB (a :: as) (b :: bs) =
          (if a < b then true else if b < a then false else listLtB as bs) from rfl]
      rcases lt_trichotomy a b with h | h | h
      · rw [if_pos h]
        exact iff_of_true rfl (List.Lex.rel h)
      · subst h
        rw [if_neg (lt_irrefl a), if_neg (lt_irrefl a), List.Lex.cons_iff]
        exact ih bs
      · rw [if_neg (lt_asymm h), if_pos h]
        constructor
        · intro hf; cases hf
        · intro hl
          cases hl with
          | rel h2 => exact absurd h2 (lt_asymm h)
          | cons h2 => exact absurd h (lt_irrefl _)

/-- `pyStrLe` is exactly the lexicographic order `≤` on strings. -/
theorem pyStrLe_iff (a b : String) : pyStrLe a b ↔ a ≤ b := by
  constructor
  · intro h hba
    rw [pyStrLe] at h
    rw [(listLtB_iff b.data a.data).mpr (String.lt_iff_toList_lt.mp hba)] at h
    cases h
  · intro h
    rw [pyStrLe]
    by_contra hne
    have ht : listLtB b.data a.data = true := by
      cases hb : listLtB b.data a.data
      · exact absurd hb hne
      · rfl
    exact h (String.lt_iff_toList_lt.mpr ((listLtB_iff b.data a.data).mp ht))

instance : IsTotal String pyStrLe :=
  ⟨fun a b => by rw [pyStrLe_iff, pyStrLe_iff]; exact le_total a b⟩

instance : IsTrans String pyStrLe :=
  ⟨fun a b c hab hbc => by
    rw [pyStrLe_iff] at hab hbc ⊢
    exact le_trans hab hbc⟩

/-- Python `sorted` on strings: lexicographic by code point. -/
def sortStrings (l : List String) : List String :=
  List.insertionSort pyStrLe l

/-- `DailyGUI.find_first_image`, given the directory listing `names`. -/
def find_first_image (folder : String) (exts : List String)
    (names : List String) : Option String :=
  (sortStrings ((exts.map fun ext =>
      (names.filter fun f => matchesExt f ext).map fun f =>
        joinPath folder f).flatten)).head?

/-- The call with the surrounding `os.listdir(folder)`: when the folder is
missing or unreadable, `os.listdir` raises (there is no handler in
`find_first_image` or its callers' cited lines), modelled as an
exceptional result. -/
def find_first_image_exc (folder : String) (exts : List String)
    (listing : Option (List String)) : Except String (Option String) :=
  match listing with
  | none => Except.error "FileNotFoundError"
  | some names => Except.ok (find_first_image folder exts names)

theorem sortStrings_head_min (l : List String) (p : String)
    (hp : (sortStrings l).head? = some p) : p ∈ l ∧ ∀ q ∈ l, p ≤ q := by
  have hperm : List.Perm (sortStrings l) l := List.perm_insertionSort pyStrLe l
  have hsorted : List.Sorted pyStrLe (sortStrings l) :=
    List.sorted_insertionSort pyStrLe l
  cases hs : sortStrings l with
  | nil => rw [hs] at hp; cases hp
  | cons a rest =>
    rw [hs] at hp
    obtain rfl : a = p := by injection hp
    rw [hs] at hperm hsorted
    constructor
    · exact hperm.mem_iff.mp (List.mem_cons_self a rest)
    · intro q hq
      rcases List.mem_cons.mp (hperm.mem_iff.mpr hq) with rfl | hq'
      · exact le_refl q
      · exact (pyStrLe_iff a q).mp (List.rel_of_sorted_cons hsorted q hq')

theorem sortStrings_head_none (l : List String)
    (h : (sortStrings l).head? = none) : l = [] := by
  have hperm : List.Perm (sortStrings l) l := List.perm_insertionSort pyStrLe l
  cases hs : sortStrings l with
  | nil => rw [hs] at hperm; exact hperm.nil_eq.symm
  | cons a rest => rw [hs] at h; cases h

theorem find_first_image_eq_none_iff (folder : String) (exts names : List String) :
    find_first_image folder exts names = none ↔
      ∀ f ∈ names, ∀ e ∈ exts, matchesExt f e = false := by
  rw [find_first_image]
  constructor
  · intro h f hf e he
    have hnil := sortStrings_head_none _ h
    rw [List.flatten_eq_nil_iff] at hnil
    by_contra hm
    have hmem : joinPath folder f ∈
        (names.filter fun g => matchesExt g e).map fun g => joinPath folder g := by
      exact List.mem_map_of_mem _ (List.mem_filter.mpr ⟨hf, by simpa using hm⟩)
    have : ((names.filter fun g => matchesExt g e).map fun g => joinPath folder g) = [] :=
      hnil _ (List.mem_map_of_mem _ he)
    rw [this] at hmem
    cases hmem
  · intro h
    have : (exts.map fun ext =>
        (names.filter fun f => matchesExt f ext).map fun f =>
          joinPath folder f).flatten = [] := by
      rw [List.flatten_eq_nil_iff]
      intro l hl
      rcases List.mem_map.mp hl with ⟨e, he, rfl⟩
      rw [List.map_eq_nil_iff, List.filter_eq_nil_iff]
      intro f hf
      simp [h f hf e he]
    rw [this]
    rfl

theorem find_first_image_min (folder : String) (exts names : List String)
    (p : String) (hp : find_first_image folder exts names = some p) :
    (∃ f, f ∈ names ∧ (∃ e, e ∈ exts ∧ matchesExt f e = true) ∧
        p = joinPath folder f) ∧
    ∀ g ∈ names, (∃ e, e ∈ exts ∧ matchesExt g e = true) →
      p ≤ joinPath folder g := by
  rw [find_first_image] at hp
  obtain ⟨hmem, hmin⟩ := sortStrings_head_min _ p hp
  constructor
  · rcases List.mem_flatten.mp hmem with ⟨l, hl, hpl⟩
    rcases List.mem_map.mp hl with ⟨e, he, rfl⟩
    rcases List.mem_map.mp hpl with ⟨f, hf, rfl⟩
    rcases List.mem_filter.mp hf with ⟨hfn, hfm⟩
    exact ⟨f, hfn, ⟨e, he, hfm⟩, rfl⟩
  · rintro g hg ⟨e, he, hm⟩
    apply hmin
    exact List.mem_flatten.mpr ⟨_, List.mem_map_of_mem _ he,
      List.mem_map_of_mem _ (List.mem_filter.mpr ⟨hg, hm⟩)⟩

theorem find_first_image_insert_non_matching (folder : String)
    (exts l1 l2 : List String) (f' : String)
    (hf' : ∀ e ∈ exts, matchesExt f' e = false) :
    find_first_image folder exts (l1 ++ f' :: l2)
      = find_first_image folder exts (l1 ++ l2) := by
  rw [find_first_image, find_first_image]
  have hmap : (exts.map fun ext =>
        ((l1 ++ f' :: l2).filter fun f => matchesExt f ext).map fun f =>
          joinPath folder f)
      = (exts.map fun ext =>
        ((l1 ++ l2).filter fun f => matchesExt f ext).map fun f =>
          joinPath folder f) :=
    List.map_congr_left fun e he => by
      simp [List.filter_append, List.filter_cons, hf' e he]
  rw [hmap]

/-- C3, counterexample to the claim as stated: with accepted extension list
`["EXR"]` the file `a.EXR` matches case-insensitively, yet the scanner
returns no match — the code lowercases only the filename
(`f.lower().endswith(ext)`), so an uppercase extension matches nothing. -/
theorem C3_counterexample :
    find_first_image "d" ["EXR"] ["a.EXR"] = none ∧
    qualifiesCI "a.EXR" "EXR" = true := by
  constructor
  · decide
  · decide

/-- C3 (amended): with qualification defined as the code does — the
*lowercased filename* ends with the extension exactly as configured — the
scanner returns no match iff no listed name qualifies; a returned path is
the folder-joined path of a qualifying name and is lexicographically
least among all qualifying file paths; and inserting a non-qualifying
name anywhere in the listing never changes the result. -/
theorem C3_scanner_amended (folder : String) (exts names : List String) :
    (find_first_image folder exts names = none ↔
      ∀ f ∈ names, ∀ e ∈ exts, matchesExt f e = false) ∧
    (∀ p, find_first_image folder exts names = some p →
      (∃ f, f ∈ names ∧ (∃ e, e ∈ exts ∧ matchesExt f e = true) ∧
          p = joinPath folder f) ∧
      ∀ g ∈ names, (∃ e, e ∈ exts ∧ matchesExt g e = true) →
        p ≤ joinPath folder g) ∧
    (∀ l1 l2 f', (∀ e ∈ exts, matchesExt f' e = false) →
      find_first_image folder exts (l1 ++ f' :: l2)
        = find_first_image folder exts (l1 ++ l2)) :=
  ⟨find_first_image_eq_none_iff folder exts names,
   fun p hp => find_first_image_min folder exts names p hp,
   fun l1 l2 f' hf' =>
     find_first_image_insert_non_matching folder exts l1 l2 f' hf'⟩

/-- Witness for C3: on listing `["b.exr", "a.jpg", "c.txt"]` with
extensions `["exr", "jpg"]`, the returned path `d/a.jpg` joins a
qualifying name and is least among the qualifying paths. -/
theorem C3_scanner_witness :
    (∃ f, f ∈ ["b.exr", "a.jpg", "c.txt"] ∧
        (∃ e, e ∈ ["exr", "jpg"] ∧ matchesExt f e = true) ∧
        "d/a.jpg" = joinPath "d" f) ∧
    ∀ g ∈ ["b.exr", "a.jpg", "c.txt"],
      (∃ e, e ∈ ["exr", "jpg"] ∧ matchesExt g e = true) →
        "d/a.jpg" ≤ joinPath "d" g :=
  (C3_scanner_amended "d" ["exr", "jpg"] ["b.exr", "a.jpg", "c.txt"]).2.1
    "d/a.jpg" (by decide)

/-- C4, counterexample to the claim as stated: when the directory does
not exist (no listing is obtainable), `os.listdir` raises and
`find_first_image` propagates the exception — it does *not* return the
no-match result. -/
theorem C4_counterexample :
    find_first_image_exc "missing" ["exr"] none
        = Except.error "FileNotFoundError" ∧
    ∀ r, find_first_image_exc "missing" ["exr"] none ≠ Except.ok r := by
  refine ⟨rfl, ?_⟩
  intro r h
  exact Except.noConfusion h

/-- C4 (amended): the scanner returns no-match (without error) when the
directory is listable but contains no qualifying file; when the directory
is missing or unreadable the `os.listdir` error propagates instead. -/
theorem C4_scanner_error_amended (folder : String) (exts : List String) :
    (∀ names, (∀ f ∈ names, ∀ e ∈ exts, matchesExt f e = false) →
      find_first_image_exc folder exts (some names) = Except.ok none) ∧
    find_first_image_exc folder exts none
        = Except.error "FileNotFoundError" := by
  constructor
  · intro names h
    simp [find_first_image_exc, (find_first_image_eq_none_iff folder exts names).mpr h]
  · rfl

/-- Witness for C4: a listable directory with no qualifying file gives
`ok none`; a missing directory gives the propagated error. -/
theorem C4_scanner_error_witness :
    find_first_image_exc "d" ["exr"] (some ["a.txt"]) = Except.ok none ∧
    find_first_image_exc "d" ["exr"] none
        = Except.error "FileNotFoundError" :=
  ⟨(C4_scanner_error_amended "d" ["exr"]).1 ["a.txt"] (by decide),
   (C4_scanner_error_amended "d" ["exr"]).2⟩

/-! ## Config overlay generator and `DailyGUI.generate_daily`

daily_gui.py lines 249-293 (same logic in daily_gui_Version3.py lines
170-223): validate the sequence folder, find the first image, re-load the
base configuration, overwrite `globals.width/height/fit` on the copy,
serialize it to a fresh temporary path, and launch the encoder
subprocess.  YAML mappings are modelled as insertion-ordered association
lists (Python dicts); `d[k] = v` replaces the value in place or appends a
new key.
-/

/-- A YAML value, as far as this subsystem needs it. -/
inductive YamlVal where
  | str : String → YamlVal
  | int : Int → YamlVal
  | bool : Bool → YamlVal
  | list : List YamlVal → YamlVal
  | map : List (String × YamlVal) → YamlVal

/-- Python `d[k]`: the value at the first matching key, if any. -/
def lookupY : List (String × YamlVal) → String → Option YamlVal
  | [], _ => none
  | (k, v) :: rest, key => if k = key then some v else lookupY rest key

/-- Python `d[key] = v`: replace in place, else append. -/
def setKeyY : List (String × YamlVal) → String → YamlVal → List (String × YamlVal)
  | [], key, v => [(key, v)]
  | (k, w) :: rest, key, v =>
    if k = key then (k, v) :: rest else (k, w) :: setKeyY rest key v

/-- The overlay mutation of `generate_daily`
(`config_copy["globals"]["width"] = width` and the two lines after it):
requires the freshly loaded base configuration to hold a mapping under
`"globals"`, otherwise Python raises (`KeyError`/`TypeError`). -/
def applyOverlay (base : List (String × YamlVal)) (w h : Int) (fit : Bool) :
    Except Unit (List (String × YamlVal)) :=
  match lookupY base "globals" with
  | some (YamlVal.map g) =>
    Except.ok (setKeyY base "globals" (YamlVal.map
      (setKeyY (setKeyY (setKeyY g "width" (YamlVal.int w))
        "height" (YamlVal.int h)) "fit" (YamlVal.bool fit))))
  | _ => Except.error ()

theorem lookupY_setKeyY_self (l : List (String × YamlVal)) (k : String)
    (v : YamlVal) : lookupY (setKeyY l k v) k = some v := by
  induction l with
  | nil => simp [setKeyY, lookupY]
  | cons kv rest ih =>
    obtain ⟨k1, v1⟩ := kv
    by_cases hk : k1 = k
    · simp [setKeyY, hk, lookupY]
    · simp [setKeyY, hk, lookupY, ih]

theorem lookupY_setKeyY_other (l : List (String × YamlVal)) (k k2 : String)
    (v : YamlVal) (hne : k2 ≠ k) :
    lookupY (setKeyY l k v) k2 = lookupY l k2 := by
  induction l with
  | nil => simp [setKeyY, lookupY, Ne.symm hne]
  | cons kv rest ih =>
    obtain ⟨k1, v1⟩ := kv
    by_cases hk : k1 = k
    · subst hk
      simp [setKeyY, lookupY, Ne.symm hne]
    · simp [setKeyY, hk, lookupY, ih]

/-- C5 (confirmed): on any base configuration holding a mapping under
`globals`, the overlay succeeds; its `globals.width/height/fit` equal the
supplied values; every other key inside `globals` and every other
top-level key — including unknown keys — is unchanged. -/
theorem C5_overlay (base : List (String × YamlVal)) (w h : Int) (fit : Bool)
    (g : List (String × YamlVal))
    (hg : lookupY base "globals" = some (YamlVal.map g)) :
    ∃ ov, applyOverlay base w h fit = Except.ok ov ∧
      (∃ g2, lookupY ov "globals" = some (YamlVal.map g2) ∧
        lookupY g2 "width" = some (YamlVal.int w) ∧
        lookupY g2 "height" = some (YamlVal.int h) ∧
        lookupY g2 "fit" = some (YamlVal.bool fit) ∧
        ∀ k, k ≠ "width" → k ≠ "height" → k ≠ "fit" →
          lookupY g2 k = lookupY g k) ∧
      ∀ k, k ≠ "globals" → lookupY ov k = lookupY base k := by
  rw [applyOverlay, hg]
  refine ⟨_, rfl, ⟨_, lookupY_setKeyY_self _ _ _, ?_, ?_, ?_, ?_⟩, ?_⟩
  · rw [lookupY_setKeyY_other _ _ _ _ (by decide),
      lookupY_setKeyY_other _ _ _ _ (by decide), lookupY_setKeyY_self]
  · rw [lookupY_setKeyY_other _ _ _ _ (by decide), lookupY_setKeyY_self]
  · rw [lookupY_setKeyY_self]
  · intro k hkw hkh hkf
    rw [lookupY_setKeyY_other _ _ _ _ hkf, lookupY_setKeyY_other _ _ _ _ hkh,
      lookupY_setKeyY_other _ _ _ _ hkw]
  · intro k hk
    rw [lookupY_setKeyY_other _ _ _ _ hk]

/-- A sample base configuration with an unknown top-level key and an
extra key inside `globals`. -/
def sampleBase : List (String × YamlVal) :=
  [("globals", YamlVal.map
      [("width", YamlVal.int 1920), ("height", YamlVal.int 1080),
       ("fit", YamlVal.bool false), ("movie_location", YamlVal.str "/tmp")]),
   ("output_codecs", YamlVal.map []),
   ("unknown_key", YamlVal.str "keep")]

/-- Witness for C5 at the sample base configuration. -/
theorem C5_overlay_witness :
    ∃ ov, applyOverlay sampleBase 960 540 true = Except.ok ov ∧
      (∃ g2, lookupY ov "globals" = some (YamlVal.map g2) ∧
        lookupY g2 "width" = some (YamlVal.int 960) ∧
        lookupY g2 "height" = some (YamlVal.int 540) ∧
        lookupY g2 "fit" = some (YamlVal.bool true) ∧
        ∀ k, k ≠ "width" → k ≠ "height" → k ≠ "fit" →
          lookupY g2 k = lookupY
            [("width", YamlVal.int 1920), ("height", YamlVal.int 1080),
             ("fit", YamlVal.bool false), ("movie_location", YamlVal.str "/tmp")] k) ∧
      ∀ k, k ≠ "globals" → lookupY ov k = lookupY sampleBase k :=
  C5_overlay sampleBase 960 540 true _ rfl

/-- The environment that `generate_daily` consults: whether the chosen
sequence folder is a directory (`os.path.isdir`), its listing, the
configured accepted extensions, and the base configuration re-loaded
from disk. -/
structure GenWorld where
  seqIsDir : Bool
  listing : List String
  exts : List String
  baseConfig : List (String × YamlVal)

/-- The observable outcome of one `generate_daily` invocation.
`aborted msg` is the `QMessageBox.critical` early return (reached before
the temporary overlay file is created and before any subprocess handling);
`raised` is an uncaught exception from the overlay mutation; `launched`
carries the overlay configuration that is serialized to the temporary
path and the encoder-facing command line (`<input> -c <codec>
[-o <out>]`). -/
inductive GenOutcome where
  | aborted : String → GenOutcome
  | raised : GenOutcome
  | launched : List (String × YamlVal) → List String → GenOutcome

/-- `DailyGUI.generate_daily` (daily_gui.py lines 249-293): validate the
folder, find the first image, build and write the overlay, launch. -/
def generate_daily (wld : GenWorld) (seqFolder outFolder codec : String)
    (w h : Int) (fit : Bool) : GenOutcome :=
  if wld.seqIsDir = false then
    GenOutcome.aborted "Please select a valid sequence folder."
  else
    match find_first_image seqFolder wld.exts wld.listing with
    | none => GenOutcome.aborted "No image sequence found in folder."
    | some inputFile =>
      match applyOverlay wld.baseConfig w h fit with
      | Except.error _ => GenOutcome.raised
      | Except.ok ov =>
        GenOutcome.launched ov
          ([inputFile, "-c", codec] ++
            (if outFolder = "" then [] else ["-o", outFolder]))

/-- C9 (confirmed): if the selected folder is not a directory, or no
qualifying image is found in it, the run aborts with an operator-facing
message; no subprocess is launched (and, as the abort happens before the
temporary-file section of the code, no overlay configuration is
written). -/
theorem C9_generate_daily_aborts (wld : GenWorld)
    (seqFolder outFolder codec : String) (w h : Int) (fit : Bool)
    (hcond : wld.seqIsDir = false ∨
      find_first_image seqFolder wld.exts wld.listing = none) :
    (∃ msg, generate_daily wld seqFolder outFolder codec w h fit
        = GenOutcome.aborted msg) ∧
    ∀ ov args, generate_daily wld seqFolder outFolder codec w h fit
        ≠ GenOutcome.launched ov args := by
  have habort : ∃ msg, generate_daily wld seqFolder outFolder codec w h fit
      = GenOutcome.aborted msg := by
    rcases hcond with hdir | hnone
    · exact ⟨_, by rw [generate_daily, if_pos hdir]⟩
    · by_cases hdir : wld.seqIsDir = false
      · exact ⟨_, by rw [generate_daily, if_pos hdir]⟩
      · exact ⟨_, by rw [generate_daily, if_neg hdir, hnone]⟩
  refine ⟨habort, ?_⟩
  obtain ⟨msg, hmsg⟩ := habort
  intro ov args h
  rw [hmsg] at h
  cases h

/-- Witness for C9: a world whose selected folder is not a directory. -/
theorem C9_generate_daily_aborts_witness :
    (∃ msg, generate_daily ⟨false, [], ["exr"], []⟩ "seq" "" "h264" 1920 1080 false
        = GenOutcome.aborted msg) ∧
    ∀ ov args, generate_daily ⟨false, [], ["exr"], []⟩ "seq" "" "h264" 1920 1080 false
        ≠ GenOutcome.launched ov args :=
  C9_generate_daily_aborts ⟨false, [], ["exr"], []⟩ "seq" "" "h264" 1920 1080 false
    (Or.inl rfl)

/-! ## Dimension sync engine (`DailyGUI.sync_output_dim`)

daily_gui.py lines 216-233.  The two output spinboxes (range 1..16384)
and the two checkboxes are wired so that `valueChanged`/`stateChanged`
invoke `sync_output_dim` synchronously; `blockSignals(True)` around a
`setValue` suppresses that re-entry, and `setValue` emits no signal when
the clamped new value equals the current one.  Python's float arithmetic
on `aspect` is IEEE-754 binary64: each operation computes the exact
rational result and rounds it to 53 significant bits, to nearest with
ties to even.  The model below carries double values as exact integer
fractions and performs that rounding after every multiplication and
division (`floatMul`, `floatDiv`); `int()` truncates the (exactly
represented) double toward zero.  The model covers the normal binary64
range, which amply contains every value these expressions produce from
spinbox and frame values.
-/

/-- A fraction of integers, used to carry the exact value of a binary64
number (every finite double is such a fraction) and the exact
intermediate results that IEEE rounding is applied to. -/
structure PyRat where
  n : Int
  d : Int
deriving DecidableEq

/-- A Python int used in float arithmetic (converted exactly; the values
in play are far below 2^53). -/
def pyOfInt (z : Int) : PyRat := ⟨z, 1⟩

/-- The exact product, before IEEE rounding. -/
def pyMul (a b : PyRat) : PyRat := ⟨a.n * b.n, a.d * b.d⟩

/-- The exact quotient, before IEEE rounding. -/
def pyDiv (a b : PyRat) : PyRat := ⟨a.n * b.d, a.d * b.n⟩

/-- Python `int()` on a double: truncation of its exact value toward
zero (a finite double is exactly the fraction that represents it). -/
def pyInt (q : PyRat) : Int :=
  if q.d < 0 then Int.tdiv (-q.n) (-q.d) else Int.tdiv q.n q.d

/-- Binary digit count of a natural number (the fuel bound of 4200
covers every number the binary64 range can produce). -/
def bitLenAux : Nat → Nat → Nat
  | 0, _ => 0
  | fuel + 1, n => if n = 0 then 0 else bitLenAux fuel (n / 2) + 1

def bitLen (n : Nat) : Nat := bitLenAux 4200 n

/-- Nearest integer to `N / D` (`D > 0`), ties to even. -/
def rhe (N D : Int) : Int :=
  if 2 * (N % D) < D then N / D
  else if D < 2 * (N % D) then N / D + 1
  else if (N / D) % 2 = 0 then N / D else N / D + 1

/-- Nearest multiple of `2 ^ e` to `a / b`, as an integer mantissa. -/
def roundPosAt (a b : Int) (e : Int) : Int :=
  if 0 ≤ e then rhe a (b * 2 ^ e.toNat)
  else rhe (a * 2 ^ (-e).toNat) b

/-- Round the positive rational `a / b` to 53 significant bits, to
nearest with ties to even: mantissa and exponent, re-rounding one binade
up when the first attempt overflows the mantissa width. -/
def roundPos (a b : Int) : Int × Int :=
  let e : Int := (bitLen a.natAbs : Int) - (bitLen b.natAbs : Int) - 53
  if roundPosAt a b e < 2 ^ 53 then (roundPosAt a b e, e)
  else (roundPosAt a b (e + 1), e + 1)

/-- The binary64 double nearest to the value of `q`, as the exact
fraction it represents (sign dealt with by symmetry; a zero denominator,
impossible in the guarded source expressions, maps to zero). -/
def roundToDouble (q : PyRat) : PyRat :=
  if q.n = 0 ∨ q.d = 0 then ⟨0, 1⟩
  else
    if (roundPos (q.n.natAbs : Int) (q.d.natAbs : Int)).2 ≥ 0 then
      ⟨(if (q.n < 0) = (q.d < 0) then 1 else -1) *
          (roundPos (q.n.natAbs : Int) (q.d.natAbs : Int)).1 *
          2 ^ (roundPos (q.n.natAbs : Int) (q.d.natAbs : Int)).2.toNat, 1⟩
    else
      ⟨(if (q.n < 0) = (q.d < 0) then 1 else -1) *
          (roundPos (q.n.natAbs : Int) (q.d.natAbs : Int)).1,
        2 ^ (-(roundPos (q.n.natAbs : Int) (q.d.natAbs : Int)).2).toNat⟩

/-- Python float division: exact quotient, IEEE-rounded. -/
def floatDiv (x y : PyRat) : PyRat := roundToDouble (pyDiv x y)

/-- Python float multiplication: exact product, IEEE-rounded. -/
def floatMul (x y : PyRat) : PyRat := roundToDouble (pyMul x y)

/-- `aspect = in_w / in_h if in_h != 0 else 1` (line 220): a binary64
division of the two ints. -/
def aspectOf (inW inH : Int) : PyRat :=
  if inH ≠ 0 then floatDiv (pyOfInt inW) (pyOfInt inH) else pyOfInt 1

/-- The two output spinbox values. -/
structure St where
  w : Int
  h : Int
deriving DecidableEq

/-- QSpinBox clamping: `setMinimum(1)`, `setMaximum(16384)`. -/
def clampSpin (v : Int) : Int := max 1 (min 16384 v)

/-- `blockSignals(True); setValue(v); blockSignals(False)` on the width
spinbox: the dependent update happens, no notification fires. -/
def setWSilent (st : St) (v : Int) : St := { st with w := clampSpin v }

/-- Same for the height spinbox. -/
def setHSilent (st : St) (v : Int) : St := { st with h := clampSpin v }

/-- The widget reported by `self.sender()` in the running slot. -/
inductive Sender where
  | width
  | height
  | other
deriving DecidableEq

/-- Engine configuration: detected input dimensions
(`self.input_dimensions`, `None` until a sequence is probed), the
aspect-lock checkbox, the fit-to-height checkbox. -/
structure Cfg where
  dims : Option (Int × Int)
  keepAr : Bool
  fit : Bool
deriving DecidableEq

/-- The aspect-lock stage (lines 221-230): on a width edit recompute the
height, on a height edit — or any other trigger while fit-to-height is
checked — recompute the width; each dependent `setValue` is wrapped in
`blockSignals`, hence silent. -/
def keepArStep (inW inH : Int) (keepAr fit : Bool) (sender : Sender)
    (st : St) : St :=
  if keepAr then
    match sender with
    | Sender.width =>
      setHSilent st (pyInt (floatDiv (pyOfInt st.w) (aspectOf inW inH)))
    | Sender.height =>
      setWSilent st (pyInt (floatMul (pyOfInt st.h) (aspectOf inW inH)))
    | Sender.other =>
      if fit then
        setWSilent st (pyInt (floatMul (pyOfInt st.h) (aspectOf inW inH)))
      else st
  else st

/-- The clamped value pushed into the width spinbox by the fit stage:
`int(in_h * aspect)` (line 233), a binary64 product — under float
rounding it can differ from `in_w` (input (3, 47) gives 2). -/
def fitWTarget (inW inH : Int) : Int :=
  clampSpin (pyInt (floatMul (pyOfInt inH) (aspectOf inW inH)))

/-- `self.out_height.setValue(in_h)` in the fit stage (line 232): *not*
signal-blocked, so when the clamped value differs from the current one
the `valueChanged` signal re-enters `sync_output_dim` with the height
spinbox as sender (`recur`); the second component counts those nested
re-entries. -/
def syncSetH (recur : Cfg → Sender → St → Option (St × Nat)) (cfg : Cfg)
    (inH : Int) (st1 : St) : Option (St × Nat) :=
  if clampSpin inH = st1.h then some (st1, 0)
  else
    match recur cfg Sender.height { st1 with h := clampSpin inH } with
    | none => none
    | some (st2, c) => some (st2, c + 1)

/-- `self.out_width.setValue(int(in_h * aspect))` in the fit stage
(line 233), likewise un-blocked. -/
def syncSetW (recur : Cfg → Sender → St → Option (St × Nat)) (cfg : Cfg)
    (inW inH : Int) (p : St × Nat) : Option (St × Nat) :=
  if fitWTarget inW inH = p.1.w then some p
  else
    match recur cfg Sender.width { p.1 with w := fitWTarget inW inH } with
    | none => none
    | some (st3, c2) => some (st3, p.2 + 1 + c2)

/-- One invocation of `sync_output_dim` once the input dimensions are
known (the guard `if not self.input_dimensions: return` has been
checked): the aspect-lock stage, then — only with fit-to-height
checked — the two un-blocked fit updates. -/
def syncDims (recur : Cfg → Sender → St → Option (St × Nat)) (cfg : Cfg) :
    Option (Int × Int) → Sender → St → Option (St × Nat)
  | none, _, st => some (st, 0)
  | some (inW, inH), sender, st =>
    if cfg.fit then
      match syncSetH recur cfg inH
          (keepArStep inW inH cfg.keepAr cfg.fit sender st) with
      | none => none
      | some p => syncSetW recur cfg inW inH p
    else some (keepArStep inW inH cfg.keepAr cfg.fit sender st, 0)

/-- One invocation of `sync_output_dim`, parameterized by the handler
(`recur`) that a non-blocked `setValue` re-enters. -/
def syncBody (recur : Cfg → Sender → St → Option (St × Nat)) (cfg : Cfg)
    (sender : Sender) (st : St) : Option (St × Nat) :=
  syncDims recur cfg cfg.dims sender st

/-- `DailyGUI.sync_output_dim`, fuel-indexed to account for the signal
re-entry; `none` means the fuel ran out before the cascade settled. The
second result component is the number of nested handler re-entries
triggered by the fit stage's un-blocked updates. -/
def sync_output_dim : Nat → Cfg → Sender → St → Option (St × Nat)
  | 0, _, _, _ => none
  | Nat.succ n, cfg, sender, st => syncBody (sync_output_dim n) cfg sender st

example : sync_output_dim 6 ⟨some (1920, 1080), true, true⟩ Sender.width ⟨960, 1080⟩
    = some (⟨1920, 1080⟩, 1) := by decide
set_option maxRecDepth 8192 in
example : sync_output_dim 6 ⟨some (20000, 20000), true, true⟩ Sender.width ⟨100, 100⟩
    = some (⟨16384, 16384⟩, 1) := by decide
example : sync_output_dim 1 ⟨some (1920, 1080), true, false⟩ Sender.width ⟨960, 1080⟩
    = some (⟨960, 540⟩, 0) := by decide
example : sync_output_dim 1 ⟨some (1920, 1080), true, false⟩ Sender.height ⟨1920, 540⟩
    = some (⟨960, 540⟩, 0) := by decide

theorem clampSpin_eq_self (v : Int) (h1 : 1 ≤ v) (h2 : v ≤ 16384) :
    clampSpin v = v := by
  rw [clampSpin, min_eq_right h2, max_eq_right h1]

theorem St.eq_of (a : St) (w h : Int) (hw : a.w = w) (hh : a.h = h) :
    a = ⟨w, h⟩ := by
  obtain ⟨aw, ah⟩ := a
  rw [← hw, ← hh]

/-- The settled state `(int(in_h*aspect) clamped, in_h)` absorbs a
height-sender re-entry without further notification: the aspect-lock
stage recomputes exactly the width value already present, and both fit
updates find their targets already set. -/
theorem sync_height_settled (n : Nat) (cfg : Cfg) (inW inH : Int)
    (hdims : cfg.dims = some (inW, inH)) (hfit : cfg.fit = true)
    (hh1 : 1 ≤ inH) (hh2 : inH ≤ 16384) :
    sync_output_dim (n + 1) cfg Sender.height ⟨fitWTarget inW inH, inH⟩
        = some (⟨fitWTarget inW inH, inH⟩, 0) := by
  have hclampH : clampSpin inH = inH := clampSpin_eq_self inH hh1 hh2
  show syncBody (sync_output_dim n) cfg Sender.height _ = _
  rw [syncBody, hdims]
  simp only [syncDims]
  rw [if_pos hfit]
  have hst1 : keepArStep inW inH cfg.keepAr cfg.fit Sender.height
      ⟨fitWTarget inW inH, inH⟩ = ⟨fitWTarget inW inH, inH⟩ := by
    cases hka : cfg.keepAr with
    | false => rfl
    | true => rfl
  rw [hst1]
  have hH : syncSetH (sync_output_dim n) cfg inH ⟨fitWTarget inW inH, inH⟩
      = some (⟨fitWTarget inW inH, inH⟩, 0) := by
    rw [syncSetH, if_pos (by rw [hclampH])]
  rw [hH]
  show syncSetW (sync_output_dim n) cfg inW inH (⟨fitWTarget inW inH, inH⟩, 0) = _
  rw [syncSetW, if_pos rfl]

/-- A width-sender re-entry at the settled state returns to it: the
aspect-lock stage may silently knock the height off `in_h`, but the fit
stage pushes it back (one more height re-entry at most). -/
theorem sync_width_settled (n : Nat) (cfg : Cfg) (inW inH : Int)
    (hdims : cfg.dims = some (inW, inH)) (hfit : cfg.fit = true)
    (hh1 : 1 ≤ inH) (hh2 : inH ≤ 16384) :
    ∃ c, c ≤ 1 ∧ sync_output_dim (n + 2) cfg Sender.width
        ⟨fitWTarget inW inH, inH⟩ = some (⟨fitWTarget inW inH, inH⟩, c) := by
  have hclampH : clampSpin inH = inH := clampSpin_eq_self inH hh1 hh2
  show ∃ c, c ≤ 1 ∧ syncBody (sync_output_dim (n + 1)) cfg Sender.width _ = _
  rw [syncBody, hdims]
  simp only [syncDims]
  rw [if_pos hfit]
  set st1 := keepArStep inW inH cfg.keepAr cfg.fit Sender.width
    ⟨fitWTarget inW inH, inH⟩ with hst1def
  have hst1w : st1.w = fitWTarget inW inH := by
    rw [hst1def]
    cases hka : cfg.keepAr with
    | false => rfl
    | true => rfl
  rw [syncSetH]
  by_cases hh : clampSpin inH = st1.h
  · rw [if_pos hh]
    show ∃ c, c ≤ 1 ∧
      syncSetW (sync_output_dim (n + 1)) cfg inW inH (st1, 0) = _
    rw [syncSetW, if_pos hst1w.symm]
    rw [St.eq_of st1 _ _ hst1w (hh.symm.trans hclampH)]
    exact ⟨0, Nat.zero_le 1, rfl⟩
  · rw [if_neg hh]
    have hrec : ({ st1 with h := clampSpin inH } : St)
        = ⟨fitWTarget inW inH, inH⟩ :=
      St.eq_of _ _ _ hst1w hclampH
    rw [hrec, sync_height_settled n cfg inW inH hdims hfit hh1 hh2]
    show ∃ c, c ≤ 1 ∧
      syncSetW (sync_output_dim (n + 1)) cfg inW inH
        (⟨fitWTarget inW inH, inH⟩, 0 + 1) = _
    rw [syncSetW, if_pos rfl]
    exact ⟨0 + 1, le_refl 1, rfl⟩

/-- A height-sender invocation from any state whose height is already
`in_h` settles at `(int(in_h*aspect) clamped, in_h)`. -/
theorem sync_height_at_input (n : Nat) (cfg : Cfg) (inW inH : Int)
    (hdims : cfg.dims = some (inW, inH)) (hfit : cfg.fit = true)
    (hh1 : 1 ≤ inH) (hh2 : inH ≤ 16384) (st : St) (hsh : st.h = inH) :
    ∃ c, c ≤ 2 ∧ sync_output_dim (n + 3) cfg Sender.height st
        = some (⟨fitWTarget inW inH, inH⟩, c) := by
  have hclampH : clampSpin inH = inH := clampSpin_eq_self inH hh1 hh2
  show ∃ c, c ≤ 2 ∧ syncBody (sync_output_dim (n + 2)) cfg Sender.height st = _
  rw [syncBody, hdims]
  simp only [syncDims]
  rw [if_pos hfit]
  cases hka : cfg.keepAr with
  | true =>
    have hst1 : keepArStep inW inH true cfg.fit Sender.height st
        = ⟨fitWTarget inW inH, inH⟩ := by
      show setWSilent st (pyInt (floatMul (pyOfInt st.h) (aspectOf inW inH))) = _
      rw [hsh, setWSilent]
      exact St.eq_of _ _ _ rfl hsh
    rw [hst1]
    have hH : syncSetH (sync_output_dim (n + 2)) cfg inH
        ⟨fitWTarget inW inH, inH⟩ = some (⟨fitWTarget inW inH, inH⟩, 0) := by
      rw [syncSetH, if_pos (by rw [hclampH])]
    rw [hH]
    show ∃ c, c ≤ 2 ∧ syncSetW (sync_output_dim (n + 2)) cfg inW inH
        (⟨fitWTarget inW inH, inH⟩, 0) = _
    rw [syncSetW, if_pos rfl]
    exact ⟨0, Nat.zero_le 2, rfl⟩
  | false =>
    have hst1 : keepArStep inW inH false cfg.fit Sender.height st = st := rfl
    rw [hst1]
    have hH : syncSetH (sync_output_dim (n + 2)) cfg inH st = some (st, 0) := by
      rw [syncSetH, if_pos (by rw [hclampH, hsh])]
    rw [hH]
    show ∃ c, c ≤ 2 ∧ syncSetW (sync_output_dim (n + 2)) cfg inW inH (st, 0) = _
    rw [syncSetW]
    by_cases hw : fitWTarget inW inH = st.w
    · rw [if_pos hw]
      rw [St.eq_of st _ _ hw.symm hsh]
      exact ⟨0, Nat.zero_le 2, rfl⟩
    · rw [if_neg hw]
      have hrec : ({ st with w := fitWTarget inW inH } : St)
          = ⟨fitWTarget inW inH, inH⟩ :=
        St.eq_of _ _ _ rfl hsh
      obtain ⟨c, hc, heq⟩ := sync_width_settled n cfg inW inH hdims hfit hh1 hh2
      rw [hrec, heq]
      exact ⟨0 + 1 + c, by omega, rfl⟩

/-- With fit-to-height checked and the input height inside the spinbox
range, any trigger of the handler settles the spinboxes at
`(int(in_h * aspect) clamped, in_h)` within fuel `n + 4`. -/
theorem sync_settles (n : Nat) (cfg : Cfg) (inW inH : Int)
    (hdims : cfg.dims = some (inW, inH)) (hfit : cfg.fit = true)
    (hh1 : 1 ≤ inH) (hh2 : inH ≤ 16384) (sender : Sender) (st : St) :
    ∃ c, sync_output_dim (n + 4) cfg sender st
        = some (⟨fitWTarget inW inH, inH⟩, c) := by
  have hclampH : clampSpin inH = inH := clampSpin_eq_self inH hh1 hh2
  show ∃ c, syncBody (sync_output_dim (n + 3)) cfg sender st = _
  rw [syncBody, hdims]
  simp only [syncDims]
  rw [if_pos hfit]
  set st1 := keepArStep inW inH cfg.keepAr cfg.fit sender st with hst1def
  rw [syncSetH]
  by_cases hh : clampSpin inH = st1.h
  · rw [if_pos hh]
    show ∃ c, syncSetW (sync_output_dim (n + 3)) cfg inW inH (st1, 0) = _
    rw [syncSetW]
    by_cases hw : fitWTarget inW inH = st1.w
    · rw [if_pos hw]
      rw [St.eq_of st1 _ _ hw.symm (hh.symm.trans hclampH)]
      exact ⟨0, rfl⟩
    · rw [if_neg hw]
      have hrec : ({ st1 with w := fitWTarget inW inH } : St)
          = ⟨fitWTarget inW inH, inH⟩ :=
        St.eq_of _ _ _ rfl (hh.symm.trans hclampH)
      obtain ⟨c, hc, heq⟩ :=
        sync_width_settled (n + 1) cfg inW inH hdims hfit hh1 hh2
      rw [hrec, heq]
      exact ⟨0 + 1 + c, rfl⟩
  · rw [if_neg hh]
    obtain ⟨c, hc, heq⟩ := sync_height_at_input n cfg inW inH hdims hfit
      hh1 hh2 { st1 with h := clampSpin inH } hclampH
    rw [heq]
    show ∃ c2, syncSetW (sync_output_dim (n + 3)) cfg inW inH
        (⟨fitWTarget inW inH, inH⟩, c + 1) = _
    rw [syncSetW, if_pos rfl]
    exact ⟨c + 1, rfl⟩

/-- C6, counterexample to the claim as stated: the fit-to-height rule's
`setValue` calls (lines 231-233) are *not* wrapped in `blockSignals`, so
a width edit at (1920,1080) with both checkboxes on re-enters the
handler once (the nested-invocation count is 1, not 0). -/
theorem C6_counterexample :
    sync_output_dim 6 ⟨some (1920, 1080), true, true⟩ Sender.width ⟨960, 1080⟩
        = some (⟨1920, 1080⟩, 1) ∧ (1 : Nat) ≠ 0 :=
  ⟨by decide, by decide⟩

/-- C6 (amended): the dependent updates of the aspect-lock rules are
performed with notification suspended, so with fit-to-height off no edit
ever re-enters the synchronization handler (it settles in a single
invocation with re-entry count 0); the fit-to-height rule's updates are
not suspended and can re-enter it (see the counterexample). -/
theorem C6_sync_amended (cfg : Cfg) (sender : Sender) (st : St)
    (hfit : cfg.fit = false) :
    ∃ st2, sync_output_dim 1 cfg sender st = some (st2, 0) := by
  show ∃ st2, syncBody (sync_output_dim 0) cfg sender st = _
  rw [syncBody]
  cases hdims : cfg.dims with
  | none => exact ⟨st, rfl⟩
  | some wh =>
    obtain ⟨inW, inH⟩ := wh
    refine ⟨keepArStep inW inH cfg.keepAr cfg.fit sender st, ?_⟩
    simp only [syncDims]
    rw [if_neg (by rw [hfit]; exact Bool.false_ne_true)]

/-- Witness for C6: a width edit with aspect-lock on and fit off. -/
theorem C6_sync_amended_witness :
    ∃ st2, sync_output_dim 1 ⟨some (1920, 1080), true, false⟩ Sender.width
        ⟨960, 1080⟩ = some (st2, 0) :=
  C6_sync_amended ⟨some (1920, 1080), true, false⟩ Sender.width ⟨960, 1080⟩ rfl

set_option maxRecDepth 8192 in
/-- C7, counterexample to the claim as stated: with input dimensions
(20000, 20000) — outside the spinbox range — and fit-to-height on, a
width edit leaves the output height at the clamp bound 16384, not at the
input height 20000 (`QSpinBox.setMaximum(16384)` clamps every
`setValue`). -/
theorem C7_counterexample :
    sync_output_dim 6 ⟨some (20000, 20000), true, true⟩ Sender.width ⟨100, 100⟩
        = some (⟨16384, 16384⟩, 1) ∧ (16384 : Int) ≠ 20000 :=
  ⟨by decide, by decide⟩

example : fitWTarget 3 47 = 2 := by decide
example : sync_output_dim 6 ⟨some (3, 47), true, true⟩ Sender.width ⟨10, 10⟩
    = some (⟨2, 47⟩, 1) := by decide

/-- C7 (amended): for an input height within the spinbox range
[1, 16384] and fit-to-height enabled, after any width or height edit the
output height equals the input height and the output width equals
`int(in_h * aspect)` clamped to the spinbox range, as the program's
binary64 arithmetic computes it — whatever the aspect-lock rules set
before.  Under float rounding that width can differ from the input
width: input (3, 47) settles at width 2 (examples above); an input
height outside the range is clamped (see the counterexample). -/
theorem C7_fit_height_amended (inW inH : Int) (keepAr : Bool) (st : St)
    (sender : Sender) (hh1 : 1 ≤ inH) (hh2 : inH ≤ 16384)
    (_hs : sender = Sender.width ∨ sender = Sender.height) :
    ∃ c, sync_output_dim 6 ⟨some (inW, inH), keepAr, true⟩ sender st
        = some (⟨fitWTarget inW inH, inH⟩, c) :=
  sync_settles 2 ⟨some (inW, inH), keepAr, true⟩ inW inH rfl rfl
    hh1 hh2 sender st

/-- Witness for C7: input (1920, 1080), width edited to 960. -/
theorem C7_fit_height_witness :
    ∃ c, sync_output_dim 6 ⟨some (1920, 1080), true, true⟩ Sender.width
        ⟨960, 1080⟩
        = some (⟨fitWTarget 1920 1080, 1080⟩, c) :=
  C7_fit_height_amended 1920 1080 true ⟨960, 1080⟩ Sender.width
    (by decide) (by decide) (Or.inl rfl)

/-- C8 (confirmed): with input (1920, 1080), aspect-lock on and fit off,
a width edit to 960 recomputes the height to exactly 540 and a height
edit to 540 recomputes the width to exactly 960 (well within the
tolerated ±1), with no handler re-entry; the aspect is in_w/in_h,
defaulting to 1 when in_h is 0. -/
theorem C8_roundtrip :
    sync_output_dim 1 ⟨some (1920, 1080), true, false⟩ Sender.width ⟨960, 1080⟩
        = some (⟨960, 540⟩, 0) ∧
    sync_output_dim 1 ⟨some (1920, 1080), true, false⟩ Sender.height ⟨1920, 540⟩
        = some (⟨960, 540⟩, 0) ∧
    aspectOf 1920 1080 = floatDiv (pyOfInt 1920) (pyOfInt 1080) ∧
    aspectOf 1920 0 = pyOfInt 1 :=
  ⟨by decide, by decide, by decide, by decide⟩

/-! ## Claim C10: the progress percentage (`DailyGUI.on_progress`) -/

/-- `percent = int((frame / total) * 100) if total else 0`
(daily_gui.py line 297): a binary64 division followed by a binary64
multiplication, truncated. -/
def on_progress_percent (frame total : Nat) : Int :=
  if total ≠ 0 then
    pyInt (floatMul (floatDiv (pyOfInt frame) (pyOfInt total)) (pyOfInt 100))
  else 0

/-- C10, counterexample to the claim as stated: at frame 29 of 100 the
program computes `int((29/100)*100)` = `int(28.999999999999996)` = 28
in binary64 — one below the exact `floor((frame/total)*100)` = 29 the
claim asserts. -/
theorem C10_counterexample :
    on_progress_percent 29 100 = 28 ∧
    ((29 : Int) * 100) / (100 : Int) = 29 ∧ (28 : Int) ≠ 29 :=
  ⟨by decide, by decide, by decide⟩

/-- C10 (amended): the percentage computation never divides by zero — a
zero total short-circuits to 0; otherwise the percent is
`int((frame/total)*100)` evaluated in binary64, which can land one below
the exact floor (28 instead of 29 at frame 29 of 100) though it often
equals it (5 at frame 12 of 240, the exact floor). -/
theorem C10_on_progress_amended :
    (∀ frame total : Nat, total = 0 → on_progress_percent frame total = 0) ∧
    on_progress_percent 12 240 = 5 ∧
    on_progress_percent 29 100 = 28 := by
  refine ⟨?_, by decide, by decide⟩
  intro frame total h
  rw [on_progress_percent, if_neg (by simp [h])]

/-- Witness for C10 at a zero total. -/
theorem C10_on_progress_witness : on_progress_percent 3 0 = 0 :=
  C10_on_progress_amended.1 3 0 rfl
